import Mathlib

/-!
Shallow embedding of the jsdoc-render-md renderer (src/index.js and the
variants in src/unnamed/part_001), with theorems checking the spec's claims.

Conventions of the embedding:
* A JavaScript documentation node ("atom") is modelled by `Atom`.
  JS `undefined`/`null` is `Atom.null`; a JS array is a `consA`/`nilA` chain
  (we only ever build well-formed chains via `arrOf`); an object is `Atom.obj`
  carrying every field the renderers read (an absent string field is `none`,
  an absent object/array field is `Atom.null`, an absent `examples` is `[]`,
  which the code cannot distinguish from an empty array).
* A thrown TypeError is `Except.error ()`; a JS function that returns
  `undefined` yields `Except.ok none`, a returned string `Except.ok (some s)`.
* `jsT` is the coercion of a possibly-`undefined` value used by template
  literals and `+` concatenation (`undefined` prints as "undefined");
  `optStr` is the coercion used by `Array.prototype.join` (`undefined`
  joins as the empty string).
-/

/-- The three renderer variants the claims cite: `ixMain` is the renderer of
src/index.js (first document), `p1Old` the first document of
src/unnamed/part_001, `p1New` the second (most complete) document of
src/unnamed/part_001. -/
inductive Variant where
  | ixMain
  | p1Old
  | p1New
deriving DecidableEq

/-- Rendering mode for `renderAtomV`: `plain` is an ordinary `renderAtom` call;
`sig` renders a params array as an inline signature list, fused with the
deep-parameter filter `params.filter(p => p.name.indexOf('.') === -1)`
(an element without a string `name` throws, as in JS); `pipe` renders a
`names` array joined by " | ". -/
inductive RMode where
  | plain
  | sig
  | pipe
deriving DecidableEq

/-- A JS documentation node as read by the renderers. -/
inductive Atom where
  | null
  | str (s : String)
  | nilA
  | consA (hd tl : Atom)
  | obj (kind name access description : Option String)
        (params returns names type properties : Atom)
        (optional variadic undocumented : Bool)
        (examples : List String)
deriving DecidableEq

/-- Builds the chain encoding of a JS array. -/
def arrOf : List Atom → Atom
  | [] => .nilA
  | a :: as => .consA a (arrOf as)

/-- Reads a chain back as a list (junk on malformed chains). -/
def toListA : Atom → List Atom
  | .nilA => []
  | .consA a t => a :: toListA t
  | _ => []

/-- Coercion used by `Array.prototype.join`: `undefined` becomes "". -/
def optStr : Option String → String
  | some s => s
  | none => ""

/-- Coercion used by template literals and `+`: `undefined` becomes
"undefined". -/
def jsT : Option String → String
  | some s => s
  | none => "undefined"

/-- JS truthiness of a string-or-absent field (the empty string is falsy). -/
def strTruthy : Option String → Bool
  | some s => s != ""
  | none => false

/-- JS truthiness of an atom value (arrays and objects are always truthy). -/
def atomTruthy : Atom → Bool
  | .null => false
  | .str s => s != ""
  | _ => true

/-- The `name` property of an atom (`undefined` on non-objects). -/
def nameOf : Atom → Option String
  | .obj _ n _ _ _ _ _ _ _ _ _ _ _ => n
  | _ => none

/-- The `description` property of an atom (`undefined` on non-objects). -/
def descOf : Atom → Option String
  | .obj _ _ _ d _ _ _ _ _ _ _ _ _ => d
  | _ => none

/-- JS `x.length !== 0` for a truthy `x` (an object's `length` is
`undefined`, and `undefined !== 0` holds). -/
def lenNonzero : Atom → Bool
  | .nilA => false
  | .consA _ _ => true
  | .str s => s != ""
  | _ => true

/-- JS `Array.prototype.join(sep)` on a list of strings. -/
def joinSep (sep : String) : List String → String
  | [] => ""
  | [x] => x
  | x :: xs => x ++ sep ++ joinSep sep xs

/-- The pattern of the generic-array regex `/Array\.<([^>]+)>/g`. -/
def patArr : List Char := "Array.<".data

/-- Scanner implementing JS `str.replace(/Array\.<([^>]+)>/g, '$1[]')`.
`seen`/`rem` track a partial match of the literal "Array.<" (`seen` is
re-emitted on failure); `inner = some acc` means "Array.<" was consumed and
the `[^>]+` capture is being collected (reversed). The pattern contains the
letter A only at its start, so after a mismatch the scan can only restart at
a mismatching 'A'. -/
def collAux (seen rem : List Char) (inner : Option (List Char)) : List Char → List Char
  | [] =>
    match inner with
    | some acc => patArr ++ acc.reverse
    | none => seen
  | c :: cs =>
    match inner with
    | some acc =>
      if c = '>' then
        if acc.isEmpty then patArr ++ '>' :: collAux [] patArr none cs
        else acc.reverse ++ '[' :: ']' :: collAux [] patArr none cs
      else collAux [] [] (some (c :: acc)) cs
    | none =>
      match rem with
      | r :: rs =>
        if c = r then
          if rs.isEmpty then collAux [] [] (some []) cs
          else collAux (seen ++ [c]) rs none cs
        else if c = 'A' then seen ++ collAux ['A'] ('r' :: 'r' :: 'a' :: 'y' :: '.' :: '<' :: []) none cs
        else seen ++ c :: collAux [] patArr none cs
      | [] => seen ++ c :: cs

/-- JS `str.replace(/Array\.<([^>]+)>/g, '$1[]')` as a string function. -/
def collapseArr (s : String) : String := String.mk (collAux [] patArr none s.data)

/-- One global-replace pass of a single character, as in `.replace(/c/g, rep)`. -/
def replaceChar (c : Char) (rep : List Char) : List Char → List Char
  | [] => []
  | x :: xs => if x = c then rep ++ replaceChar c rep xs else x :: replaceChar c rep xs

/-- ASCII `[A-Z]`, as matched by the linking regex. -/
def isUpperA (c : Char) : Bool := 'A' ≤ c && c ≤ 'Z'

/-- ASCII `[a-z0-9]`, as matched by the linking regex. -/
def isLowDig (c : Char) : Bool := ('a' ≤ c && c ≤ 'z') || ('0' ≤ c && c ≤ '9')

/-- A character that can extend a match of `/([A-Z][a-z0-9]*)+/`: since each
token starts with an uppercase letter, the regex's greedy match from an
uppercase start consumes exactly the maximal run of these characters. -/
def isWordy (c : Char) : Bool := isUpperA c || isLowDig c

/-- The anchor target: `s.toLowerCase().replace(/[^a-z0-9]/g, '')`. -/
def lcStrip (m : List Char) : List Char :=
  (m.map Char.toLower).filter (fun c => ('a' ≤ c && c ≤ 'z') || ('0' ≤ c && c ≤ '9'))

/-- The replacement `<a href='#target'>match</a>` of the linking regex. -/
def anchorOf (m : List Char) : List Char :=
  ("<a href='#".data) ++ lcStrip m ++ ("'>".data) ++ m ++ ("</a>".data)

/-- Scanner implementing
`str.replace(/([A-Z][a-z0-9]*)+/g, s => anchor)`: `acc` holds the current
match, reversed (empty iff no match is open). -/
def linkAux (acc : List Char) : List Char → List Char
  | [] => if acc.isEmpty then [] else anchorOf acc.reverse
  | c :: cs =>
    if acc.isEmpty then
      if isUpperA c then linkAux [c] cs else c :: linkAux [] cs
    else
      if isWordy c then linkAux (c :: acc) cs
      else anchorOf acc.reverse ++ c :: linkAux [] cs

/-- The capitalized-word linking pass of `renderString` (part_001, second
document), applied only when `options.html` is set. -/
def linkifyCaps (s : String) : String := String.mk (linkAux [] s.data)

/-- The entity-escaping passes shared by the string renderers of
src/index.js and the second document of part_001: `&` then `<` then `>`. -/
def escapeEntities (s : String) : String :=
  String.mk (replaceChar '>' ("&gt;".data)
    (replaceChar '<' ("&lt;".data)
      (replaceChar '&' ("&amp;".data) s.data)))

/-- String escaping of `renderString` (part_001, second document):
collapse `Array.<T>`, escape `&` `<` `>`, then link capitalized runs when
`html` is set. -/
def renderStringNew (s : String) (html : Bool) : String :=
  let l := collAux [] patArr none s.data
  let l := replaceChar '&' ("&amp;".data) l
  let l := replaceChar '<' ("&lt;".data) l
  let l := replaceChar '>' ("&gt;".data) l
  let l := if html then linkAux [] l else l
  String.mk l

/-- String escaping of `renderAtom` in src/index.js: collapse `Array.<T>`,
escape `&` `<` `>` (no linking). -/
def renderStringIx (s : String) : String :=
  let l := collAux [] patArr none s.data
  let l := replaceChar '&' ("&amp;".data) l
  let l := replaceChar '<' ("&lt;".data) l
  let l := replaceChar '>' ("&gt;".data) l
  String.mk l

/-- String escaping of `renderAtom` in the first document of part_001:
collapse `Array.<T>`, escape `*` (to `\*`), `<` and `>`; `&` is untouched. -/
def renderStringOld (s : String) : String :=
  let l := collAux [] patArr none s.data
  let l := replaceChar '*' ("\\*".data) l
  let l := replaceChar '<' ("&lt;".data) l
  let l := replaceChar '>' ("&gt;".data) l
  String.mk l

/-- JS `name.indexOf('.') !== -1`: the name contains a dot. -/
def hasDot (n : String) : Bool := n.data.any (fun c => c = '.')

/-- JS `renderAtom(atom.returns) || 'void'` (`undefined` and "" are falsy). -/
def jsOrVoid : Option String → String
  | some s => if s = "" then "void" else s
  | none => "void"

/-- The recursive `renderAtom` of the three variants. The `Bool` argument is
the truthiness of `options && options.html` (only `p1New` threads options; the
other variants are always called with it `false`). In `sig` mode a parameter
without a string `name` makes the deep-parameter filter throw; in `pipe` and
`sig` mode a non-array value throws, as `.filter`/`.map` would. -/
def renderAtomV : Variant → RMode → Bool → Atom → Except Unit (Option String)
  | _, .plain, _, .null => .ok none
  | v, .plain, h, .str s =>
    .ok (some (match v with
      | .ixMain => renderStringIx s
      | .p1Old => renderStringOld s
      | .p1New => renderStringNew s h))
  | _, .plain, _, .nilA => .ok (some "")
  | v, .plain, h, .consA hd tl => do
    let r ← renderAtomV v .plain h hd
    match tl with
    | .nilA => .ok (some (optStr r))
    | _ => do
      let rt ← renderAtomV v .plain h tl
      .ok (some (optStr r ++ ", " ++ optStr rt))
  | v, .plain, h, .obj kind name _acc _d params rets names ty props opt var _und _exs =>
    match v with
    | .ixMain =>
      if kind = some "function" then do
        let s ← renderAtomV .ixMain .sig false params
        let r ← renderAtomV .ixMain .plain false rets
        .ok (some ("<code>" ++ jsT name ++ "(" ++ optStr s ++ ")</code>" ++ " → " ++
          "<em>" ++ jsOrVoid r ++ "</em>"))
      else if atomTruthy names then renderAtomV .ixMain .pipe false names
      else if strTruthy name ∧ atomTruthy ty then do
        let t ← renderAtomV .ixMain .plain false ty
        .ok (some ("<b title='" ++ jsT t ++ "'>" ++ optStr name ++ "</b>" ++
          (if opt then "<sub title=\"Optional\">?</sub>" else "")))
      else if strTruthy name then .ok (some (optStr name))
      else if atomTruthy ty then renderAtomV .ixMain .plain false ty
      else .ok none
    | .p1Old =>
      if kind = some "function" then do
        let s ← renderAtomV .p1Old .sig false params
        let r ← renderAtomV .p1Old .plain false rets
        .ok (some ("<code>" ++ jsT name ++ "(" ++ optStr s ++ ")</code>" ++ " → " ++
          "<em>" ++ jsOrVoid r ++ "</em>"))
      else if atomTruthy names then renderAtomV .p1Old .pipe false names
      else if strTruthy name ∧ atomTruthy ty then do
        let t ← renderAtomV .p1Old .plain false ty
        .ok (some ("<b title='" ++ jsT t ++ "'>" ++ optStr name ++ "</b>"))
      else if strTruthy name then .ok (some (optStr name))
      else if atomTruthy ty then renderAtomV .p1Old .plain false ty
      else .ok none
    | .p1New =>
      if kind = some "function" ∨ (kind = some "typedef" ∧ atomTruthy params) then do
        let s ← renderAtomV .p1New .sig false params
        .ok (some ("<code>" ++ jsT name ++ "(" ++ optStr s ++ ")</code>"))
      else if kind = some "typedef" ∧ atomTruthy props then do
        let r ← renderAtomV .p1New .plain h props
        .ok (some ("<code>\x7b " ++ jsT r ++ " \x7d</code>"))
      else if atomTruthy names then renderAtomV .p1New .pipe h names
      else if strTruthy name ∧ atomTruthy ty then do
        let t ← renderAtomV .p1New .plain h ty
        let b := "<b title='" ++ jsT t ++ "'>" ++ optStr name ++ "</b>"
        let b := if opt then b ++ "<sub title=\"Optional\">?</sub>" else b
        let b := if var then "..." ++ b else b
        .ok (some b)
      else if strTruthy name then .ok (some (optStr name))
      else if atomTruthy ty then renderAtomV .p1New .plain h ty
      else .ok none
  | _, .sig, _, .nilA => .ok none
  | v, .sig, h, .consA hd tl =>
    match nameOf hd with
    | none => .error ()
    | some n =>
      if hasDot n then renderAtomV v .sig h tl
      else do
        let rh ← renderAtomV v .plain h hd
        let rt ← renderAtomV v .sig h tl
        .ok (some (optStr rh ++ (match rt with | none => "" | some s => ", " ++ s)))
  | _, .sig, _, _ => .error ()
  | _, .pipe, _, .nilA => .ok (some "")
  | v, .pipe, h, .consA hd tl => do
    let rh ← renderAtomV v .plain h hd
    match tl with
    | .nilA => .ok (some (optStr rh))
    | _ => do
      let rt ← renderAtomV v .pipe h tl
      .ok (some (optStr rh ++ " | " ++ optStr rt))
  | _, .pipe, _, _ => .error ()

/-- A view of an object's fields: reading any property of `null`/`undefined`
throws, while a property missing from a string or an array reads as absent. -/
structure ObjView where
  kind : Option String
  name : Option String
  access : Option String
  description : Option String
  params : Atom
  returns : Atom
  names : Atom
  type : Atom
  properties : Atom
  optional : Bool
  variadic : Bool
  undocumented : Bool
  examples : List String
deriving DecidableEq

/-- Reads an atom's fields; `.error ()` models the TypeError of a property
access on `null`/`undefined`. -/
def viewOf : Atom → Except Unit ObjView
  | .null => .error ()
  | .obj k n a d p r nm t pr o v u e => .ok ⟨k, n, a, d, p, r, nm, t, pr, o, v, u, e⟩
  | _ => .ok ⟨none, none, none, none, .null, .null, .null, .null, .null, false, false, false, []⟩

/-- JS `/\.$/.test(str)`: the string ends in a period. -/
def endsDot (s : String) : Bool := s.data.getLast? = some '.'

/-- The `dotify` of src/index.js and part_001: append a period unless the
string already ends in one. -/
def dotify (s : String) : String := if endsDot s then s else s ++ "."

/-- The `renderReturns` of the second document of part_001 (the branches for
a `type` are commented out in the source: a descriptor without a truthy
`description` maps to `undefined`). Reading `r.description` of a `null`
element throws. -/
def renderReturnsNew : List Atom → Except Unit (List (Option String))
  | [] => .ok []
  | r :: rs => do
    let f ← viewOf r
    let frag := if strTruthy f.description then
        some ("Returns " ++ dotify (optStr f.description))
      else none
    let rest ← renderReturnsNew rs
    .ok (frag :: rest)

/-- The `isSimpleReturn` of part_001 (second document): the array is truthy,
its first element is truthy, and that element's description is falsy or does
not end in a period. -/
def isSimpleReturnNew : List Atom → Bool
  | [] => false
  | r :: _ => atomTruthy r && (!(strTruthy (descOf r)) || !(endsDot (optStr (descOf r))))

/-- JS `String(array)`, i.e. `join(',')` with `undefined` joining as "". -/
def jsJoinComma (l : List (Option String)) : String := joinSep "," (l.map optStr)

/-- JS `md[md.length - 1] = md[md.length - 1] + s` on a nonempty array. -/
def appendToLast (l : List String) (s : String) : List String :=
  match l with
  | [] => []
  | [x] => [x ++ s]
  | x :: xs => x :: appendToLast xs s

/-- Sequential `Array.prototype.map` with a callback that can throw. -/
def mapME (f : Atom → Except Unit String) : List Atom → Except Unit (List String)
  | [] => .ok []
  | a :: as => do
    let r ← f a
    let rest ← mapME f as
    .ok (r :: rest)

/-- The table-mode `renderParam` shared by src/index.js and the second
document of part_001 (parameterised by which file's `renderAtom` it calls):
`| `name` | type, _optional_ | description |` with empty cells for absent
type/description and the full dotted name untouched. -/
def renderParamTable (v : Variant) (p : Atom) : Except Unit String := do
  let f ← viewOf p
  let c1 := "`" ++ jsT f.name ++ "`"
  let c2 ← if atomTruthy f.type then do
      let t ← renderAtomV v .plain false f.type
      .ok (jsT t ++ (if f.optional then ", _optional_" else ""))
    else .ok ""
  let c3 := if strTruthy f.description then optStr f.description else ""
  .ok ("| " ++ joinSep " | " [c1, c2, c3] ++ " |")

/-- The fixed 3-column table header of `renderParams` (table mode). -/
def tableHeader : String := "| Param | Type | Description |\n| --- | --- | --- |\n"

/-- The `renderParams` of src/index.js: header plus one row per parameter. -/
def renderParamsIx (ps : List Atom) : Except Unit String := do
  let rows ← mapME (renderParamTable .ixMain) ps
  .ok (tableHeader ++ joinSep "\n" rows)

/-- The `renderParams` of the second document of part_001, taking the raw
`params`/`properties` value: calling `.map` on a non-array throws. -/
def renderParamsAtomNew : Atom → Except Unit String
  | .nilA => .ok (tableHeader ++ joinSep "\n" [])
  | .consA a t => do
    let rows ← mapME (renderParamTable .p1New) (a :: toListA t)
    .ok (tableHeader ++ joinSep "\n" rows)
  | _ => .error ()

/-- JS `name.split('.')` on the character list (never returns an empty
list). -/
def splitDots : List Char → List (List Char)
  | [] => [[]]
  | c :: cs =>
    match splitDots cs with
    | g :: gs => if c = '.' then [] :: g :: gs else (c :: g) :: gs
    | [] => [[c]]

/-- JS `Array(n).join(sep)`: `n` empty slots joined, i.e. `n - 1` copies of
the separator. -/
def arrayNJoin (n : Nat) (sep : String) : String := String.join (List.replicate (n - 1) sep)

/-- The list-mode `renderParam` of the first document of part_001: a bullet
indented two spaces per dot of the name, showing only the last dot-separated
segment, then an optional `*( ?type )*` annotation and an `&mdash;`
description. `param.name.split` throws when `name` is absent. -/
def renderParamListOld (p : Atom) : Except Unit String := do
  let f ← viewOf p
  match f.name with
  | none => .error ()
  | some nm => do
    let segs := splitDots nm.data
    let parts := [arrayNJoin segs.length "  " ++ "-",
                  "`" ++ String.mk (segs.getLastD []) ++ "`"]
    let parts ← if atomTruthy f.type then do
        let t ← renderAtomV .p1Old .plain false f.type
        .ok (parts ++ ["*(" ++ (if f.optional then "<span title='Optional'>?</span>" else "") ++
          jsT t ++ ")*"])
      else .ok parts
    let parts := if strTruthy f.description then parts ++ ["&mdash;", optStr f.description]
      else parts
    .ok (joinSep " " parts)

/-- The `renderParams` of the first document of part_001 (list mode): one
line per parameter, joined into a single block. -/
def renderParamsOld (ps : List Atom) : Except Unit (List String) := do
  let rows ← mapME renderParamListOld ps
  .ok [joinSep "\n" rows]

/-- The `renderReturnSignature` of part_001 (second document):
`> Returns <code>type</code>`, with `void` when the rendered returns are
falsy and a ` *(callback)*` suffix for typedefs. The returns are rendered
with `{ html: true }`. -/
def renderReturnSignatureNew (f : ObjView) : Except Unit String := do
  let r ← renderAtomV .p1New .plain true f.returns
  let sg := "<code>" ++ jsOrVoid r ++ "</code>"
  let sg := if f.kind = some "typedef" then sg ++ " *(callback)*" else sg
  .ok ("> Returns " ++ sg)

/-- An example rendered as a fenced code block. -/
def exBlock (ex : String) : String := "```js\n" ++ ex ++ "\n```"

/-- The first half of `renderBody` (part_001, second document): the
`<details>` signature block (for params, else properties, else any
non-class/module kind) followed by the description block. -/
def detailsAndDesc (sec : Atom) : Except Unit (List String) := do
  let f ← viewOf sec
  let md ←
    if atomTruthy f.params ∧ lenNonzero f.params then do
      let sm ← renderAtomV .p1New .plain false sec
      let tb ← renderParamsAtomNew f.params
      let rsig ← renderReturnSignatureNew f
      .ok ["<details>\n<summary>" ++ jsT sm ++ "</summary>\n\n" ++ tb ++ "\n\n" ++
        rsig ++ "\n</details>"]
    else if atomTruthy f.properties ∧ lenNonzero f.properties then do
      let sm ← renderAtomV .p1New .plain false sec
      let tb ← renderParamsAtomNew f.properties
      .ok ["<details>\n<summary>" ++ jsT sm ++ "</summary>\n\n" ++ tb ++ "\n</details>"]
    else if ¬(f.kind = some "class" ∨ f.kind = some "module") then do
      let sm ← renderAtomV .p1New .plain false sec
      .ok ["<details>\n<summary>" ++ jsT sm ++ "</summary>\n</details>"]
    else .ok ([] : List String)
  .ok (if strTruthy f.description then md ++ [optStr f.description] else md)

/-- The returns step of `renderBody` (part_001, second document): when the
returns value is truthy, render the fragments; `renderReturns` always yields
a (truthy) array, and when `isSimpleReturn` holds and blocks exist the whole
fragment array is string-coerced (comma-joined) onto the last block after a
single space, else each fragment is appended as its own block. -/
def retStep (r : Atom) (md : List String) : Except Unit (List String) :=
  match r with
  | .null => .ok md
  | .str s => if s = "" then .ok md else .error ()
  | .obj _ _ _ _ _ _ _ _ _ _ _ _ _ => .error ()
  | _ => do
    let frs ← renderReturnsNew (toListA r)
    if isSimpleReturnNew (toListA r) ∧ md ≠ [] then
      .ok (appendToLast md (" " ++ jsJoinComma frs))
    else
      .ok (md ++ frs.map optStr)

/-- The `renderBody` of part_001 (second document): signature block,
description, merged returns, example blocks, joined by blank lines. -/
def renderBodyNew (sec : Atom) : Except Unit String := do
  let f ← viewOf sec
  let pre ← detailsAndDesc sec
  let md2 ← retStep f.returns pre
  let md3 := md2 ++ f.examples.map exBlock
  .ok (joinSep "\n\n" md3)

/-- The `renderAccess` of part_001 (second document). -/
def renderAccessNew (f : ObjView) : Option String :=
  if strTruthy f.access ∧ f.access ≠ some "public" then
    some ("<span title='" ++ optStr f.access ++ "'>🔸</span>")
  else none

/-- The `renderSection` of part_001 (second document): heading with anchor,
name, `()` suffix for functions and access badge, then the body. -/
def renderSectionNew (pfx : String) (sec : Atom) : Except Unit String := do
  let f ← viewOf sec
  let prelude := pfx ++ "<a id='" ++ jsT f.name ++ "'></a>" ++ jsT f.name ++
    (if f.kind = some "function" then "()" else "") ++ optStr (renderAccessNew f)
  let body ← renderBodyNew sec
  .ok (prelude ++ "\n\n" ++ body)

/-- The options of `render` (part_001, second document). -/
structure ROptions where
  title : Option String
  includePrivate : Bool
deriving DecidableEq

/-- The first filter of `render`:
`data.filter(s => !s.undocumented && s.kind !== 'package')`; the property
reads throw on a `null` element. -/
def filterUndoc : List Atom → Except Unit (List Atom)
  | [] => .ok []
  | s :: ss => do
    let f ← viewOf s
    let rest ← filterUndoc ss
    if !f.undocumented && f.kind != some "package" then .ok (s :: rest) else .ok rest

/-- The private filter of `render`:
`data.filter(s => !s.access || s.access !== 'private')`. -/
def filterPriv : List Atom → Except Unit (List Atom)
  | [] => .ok []
  | s :: ss => do
    let f ← viewOf s
    let rest ← filterPriv ss
    if !(strTruthy f.access) || f.access != some "private" then .ok (s :: rest) else .ok rest

/-- The heading prefix chosen by `render` from a section's kind (transcribing
the if-chain: module, then class/module, then function/member, else). -/
def sectionPrefix (k : Option String) : String :=
  if k = some "module" then "## "
  else if k = some "class" ∨ k = some "module" then "## "
  else if k = some "function" ∨ k = some "member" then "### "
  else "### "

/-- The per-section map of `render`. -/
def renderSections : List Atom → Except Unit (List String)
  | [] => .ok []
  | s :: ss => do
    let f ← viewOf s
    let r ← renderSectionNew (sectionPrefix f.kind) s
    let rest ← renderSections ss
    .ok (r :: rest)

/-- The `render` entry point of part_001 (second document): drop
undocumented/package sections, drop privates unless `includePrivate`, render
the rest joined by blank lines, and prefix `# title` when a title is given. -/
def renderNew (data : List Atom) (opts : ROptions) : Except Unit String := do
  let d1 ← filterUndoc data
  let d2 ← if opts.includePrivate then .ok d1 else filterPriv d1
  let parts ← renderSections d2
  let out := joinSep "\n\n" parts
  .ok (if strTruthy opts.title then "# " ++ optStr opts.title ++ "\n\n" ++ out else out)

/-- A return descriptor object. -/
def mkRet (d : Option String) (t : Atom) : Atom :=
  .obj none none none d .null .null .null t .null false false false []

/-- A parameter object. -/
def mkParam (n : Option String) (t : Atom) (o : Bool) (d : Option String) : Atom :=
  .obj none n none d .null .null .null t .null o false false []

/-- A plain type atom `{ names: ['number'] }`. -/
def numberType : Atom :=
  .obj none none none none .null .null (arrOf [.str "number"]) .null .null false false false []

theorem endsDot_append_dot (s : String) : endsDot (s ++ ".") = true := by
  obtain ⟨l⟩ := s
  show endsDot (String.mk (l ++ ['.'])) = true
  simp [endsDot, List.getLast?_concat]

/-- C6: `dotify` returns its argument unchanged when it already ends in a
period and appends a period otherwise; `dotify "Hello" = "Hello."`,
`dotify "Hi." = "Hi."`, and `dotify` is idempotent. -/
theorem dotify_sentence_idempotent :
    (∀ s : String, dotify s = if endsDot s then s else s ++ ".") ∧
    dotify "Hello" = "Hello." ∧ dotify "Hi." = "Hi." ∧
    (∀ s : String, dotify (dotify s) = dotify s) := by
  refine ⟨fun s => rfl, rfl, rfl, fun s => ?_⟩
  by_cases h : endsDot s
  · simp [dotify, h]
  · simp [dotify, h, endsDot_append_dot]

/-- C9: rendering an empty section list with title "API" yields exactly the
heading `# API` followed by the blank-line separator the title always
carries, and nothing beyond whitespace after the heading. -/
theorem render_empty_with_title :
    renderNew [] ⟨some "API", false⟩ = .ok ("# API" ++ "\n\n") ∧
    (∀ c ∈ ("\n\n").data, c.isWhitespace) := ⟨rfl, by decide⟩

/-- C5: the string escaper of part_001's `renderString` applies, in fixed
order, the `Array.<Inner>` collapse to `Inner[]`, then the ampersand and
angle-bracket escapes, then — only when html linking is enabled — the
anchor-wrapping of maximal capitalized-word runs targeting their lowercase
alphanumeric form; escaping "Array.<string>" once yields "string[]". -/
theorem renderString_order_and_collapse :
    (∀ s, renderStringNew s false = escapeEntities (collapseArr s)) ∧
    (∀ s, renderStringNew s true = linkifyCaps (escapeEntities (collapseArr s))) ∧
    renderStringNew "Array.<string>" false = "string[]" ∧
    renderStringNew "Array.<string>" true = "string[]" ∧
    renderAtomV .p1New .plain false (.str "Array.<string>") = .ok (some "string[]") ∧
    renderStringNew "Tree" false = "Tree" ∧
    renderStringNew "Tree" true = "<a href='#tree'>Tree</a>" ∧
    renderStringNew "HAMTTree" true = "<a href='#hamttree'>HAMTTree</a>" :=
  ⟨fun _ => rfl, fun _ => rfl, rfl, rfl, rfl, rfl, rfl, rfl⟩

/-- C7 counterexample: a return descriptor carrying a type but no
description yields no fragment at all (the type-only fallback branch is
commented out in the source), not the generic "Returns a ..." fallback. -/
theorem renderReturns_type_only_counterexample :
    renderReturnsNew [mkRet none numberType] = .ok [none] ∧
    renderReturnsNew [mkRet none numberType] ≠ .ok [some "Returns a number."] := by
  refine ⟨rfl, fun h => ?_⟩
  rw [show renderReturnsNew [mkRet none numberType] = .ok [none] from rfl] at h
  simp at h

/-- C7 amended: in the current renderer a return descriptor with a type but
no description contributes an empty fragment (`undefined`), for any type
value; the generic type-only fallback is not produced. -/
theorem renderReturns_type_only_amended :
    ∀ (t : Atom) (rest : List Atom),
      renderReturnsNew (mkRet none t :: rest) = (renderReturnsNew rest).map (List.cons none) := by
  intro t rest
  show (do
      let f ← viewOf (mkRet none t)
      let frag := if strTruthy f.description then
          some ("Returns " ++ dotify (optStr f.description))
        else none
      let rest' ← renderReturnsNew rest
      .ok (frag :: rest')) = (renderReturnsNew rest).map (List.cons none)
  cases hr : renderReturnsNew rest with
  | ok l => rfl
  | error e => rfl

/-- C2 counterexample: `renderAtom` (part_001, second document) applied to a
function-kind atom whose `params` field is absent throws (the TypeError of
`atom.params.filter`) instead of rendering a zero-parameter signature. -/
theorem renderAtom_function_missing_params_throws :
    renderAtomV .p1New .plain false
      (.obj (some "function") (some "f") none none .null .null .null .null .null
        false false false []) = .error () := rfl

/-- C2 amended: `renderAtom` degrades `null` and shape-unmatched atoms to no
output without raising, but a function-kind atom whose `params` field is
absent throws a TypeError rather than being rendered as a zero-parameter
callable signature. -/
theorem renderAtom_totality_amended :
    (∀ h : Bool, renderAtomV .p1New .plain h .null = .ok none) ∧
    (∀ (kind name acc d : Option String) (params rets names ty props : Atom)
       (opt vr undoc : Bool) (exs : List String) (h : Bool),
       ¬(kind = some "function" ∨ (kind = some "typedef" ∧ atomTruthy params)) →
       ¬(kind = some "typedef" ∧ atomTruthy props) →
       atomTruthy names = false →
       strTruthy name = false →
       atomTruthy ty = false →
       renderAtomV .p1New .plain h
         (.obj kind name acc d params rets names ty props opt vr undoc exs) = .ok none) ∧
    (∀ (name acc d : Option String) (rets names ty props : Atom)
       (opt vr undoc : Bool) (exs : List String) (h : Bool),
       renderAtomV .p1New .plain h
         (.obj (some "function") name acc d .null rets names ty props opt vr undoc exs) =
         .error ()) := by
  refine ⟨fun _ => rfl, ?_, ?_⟩
  · intro kind name acc d params rets names ty props opt vr undoc exs h h1 h2 h3 h4 h5
    simp only [renderAtomV]
    rw [if_neg h1, if_neg h2, if_neg (by simp [h3]), if_neg (by simp [h4]),
      if_neg (by simp [h4]), if_neg (by simp [h5])]
  · intro name acc d rets names ty props opt vr undoc exs h
    simp only [renderAtomV]
    rw [if_pos (by simp)]
    rfl

/-- C2 amended witness: a member-kind atom with every recognisable field
absent renders as no output without error. -/
theorem renderAtom_totality_amended_witness :
    renderAtomV .p1New .plain false
      (.obj (some "member") none none none .null .null .null .null .null
        false false false []) = .ok none :=
  renderAtom_totality_amended.2.1 (some "member") none none none .null .null .null .null .null
    false false false [] false (by decide) (by decide) (by decide) (by decide) (by decide)

/-- C10: a typedef atom with truthy `params` is rendered as a callable
signature exactly as a function-kind atom would be, its `properties`
contributing nothing; the brace-wrapped object-literal rendering applies
only when `params` is falsy. -/
theorem renderAtom_typedef_params_precedence :
    (∀ (nm acc d : Option String) (pa rets names ty props : Atom)
       (o vr u : Bool) (e : List String) (h : Bool),
       atomTruthy pa = true →
       renderAtomV .p1New .plain h
           (.obj (some "typedef") nm acc d pa rets names ty props o vr u e) =
         renderAtomV .p1New .plain h
           (.obj (some "typedef") nm acc d pa rets names ty .null o vr u e) ∧
       renderAtomV .p1New .plain h
           (.obj (some "typedef") nm acc d pa rets names ty props o vr u e) =
         renderAtomV .p1New .plain h
           (.obj (some "function") nm acc d pa rets names ty props o vr u e)) ∧
    (∀ (nm acc d : Option String) (rets names ty props : Atom)
       (o vr u : Bool) (e : List String) (h : Bool),
       atomTruthy props = true →
       renderAtomV .p1New .plain h
           (.obj (some "typedef") nm acc d .null rets names ty props o vr u e) =
         (renderAtomV .p1New .plain h props).map
           (fun r => some ("<code>\x7b " ++ jsT r ++ " \x7d</code>"))) := by
  constructor
  · intro nm acc d pa rets names ty props o vr u e h hpa
    constructor
    · simp only [renderAtomV]
      rw [if_pos (by simp [hpa]), if_pos (by simp [hpa])]
    · simp only [renderAtomV]
      rw [if_pos (by simp [hpa]), if_pos (by simp)]
  · intro nm acc d rets names ty props o vr u e h hpr
    simp only [renderAtomV]
    rw [if_neg (by simp [atomTruthy]), if_pos (by simp [hpr])]
    cases hp : renderAtomV .p1New .plain h props with
    | ok r => rfl
    | error er => rfl

/-- The deep-parameter filter's keep predicate:
`p.name.indexOf('.') === -1` (false when the name is absent, where the
source would throw). -/
def keepName (p : Atom) : Bool :=
  match nameOf p with
  | some n => !(hasDot n)
  | none => false

/-- The string a successful `renderAtom` call contributes to a joined
parameter list (`undefined` joins as ""). -/
def raS (v : Variant) (p : Atom) : String :=
  match renderAtomV v .plain false p with
  | .ok o => optStr o
  | .error _ => ""

/-- The value of a non-throwing `renderAtom` call. -/
def okD : Except Unit (Option String) → Option String
  | .ok o => o
  | .error _ => none

theorem str_append_empty (s : String) : s ++ "" = s := by
  obtain ⟨l⟩ := s
  show String.mk (l ++ []) = String.mk l
  rw [List.append_nil]

theorem str_append_assoc (a b c : String) : a ++ b ++ c = a ++ (b ++ c) := by
  obtain ⟨la⟩ := a
  obtain ⟨lb⟩ := b
  obtain ⟨lc⟩ := c
  show String.mk (la ++ lb ++ lc) = String.mk (la ++ (lb ++ lc))
  rw [List.append_assoc]

theorem joinSep_cons (sep x : String) (xs : List String) (h : xs ≠ []) :
    joinSep sep (x :: xs) = x ++ sep ++ joinSep sep xs := by
  cases xs with
  | nil => exact absurd rfl h
  | cons y ys => rfl

theorem sig_eq_filter (v : Variant) :
    ∀ ps : List Atom,
      (∀ p ∈ ps, (nameOf p).isSome) →
      (∀ p ∈ ps, keepName p = true → (renderAtomV v .plain false p).isOk = true) →
      renderAtomV v .sig false (arrOf ps) =
        .ok (if ps.filter keepName = [] then none
             else some (joinSep ", " ((ps.filter keepName).map (raS v)))) := by
  intro ps
  induction ps with
  | nil => intro _ _; rfl
  | cons p ps ih =>
    intro h1 h2
    obtain ⟨n, hn⟩ := Option.isSome_iff_exists.mp (h1 p (List.mem_cons_self p ps))
    have ihh := ih (fun q hq => h1 q (List.mem_cons_of_mem _ hq))
      (fun q hq hk => h2 q (List.mem_cons_of_mem _ hq) hk)
    by_cases hdot : hasDot n = true
    · have hkeep : keepName p = false := by simp [keepName, hn, hdot]
      have hstep : renderAtomV v .sig false (arrOf (p :: ps)) =
          renderAtomV v .sig false (arrOf ps) := by
        show renderAtomV v .sig false (.consA p (arrOf ps)) = _
        simp only [renderAtomV, hn]
        rw [if_pos hdot]
      rw [hstep, ihh]
      simp [List.filter_cons, hkeep]
    · have hb : hasDot n = false := by
        revert hdot; cases hasDot n <;> simp
      have hkeep : keepName p = true := by simp [keepName, hn, hb]
      obtain ⟨o, ho⟩ : ∃ o, renderAtomV v .plain false p = .ok o := by
        have hok := h2 p (List.mem_cons_self p ps) hkeep
        cases hcase : renderAtomV v .plain false p with
        | ok o => exact ⟨o, rfl⟩
        | error e => rw [hcase] at hok; cases hok
      have hfc : (p :: ps).filter keepName = p :: ps.filter keepName := by
        simp [List.filter_cons, hkeep]
      show renderAtomV v .sig false (.consA p (arrOf ps)) = _
      simp only [renderAtomV, hn]
      rw [if_neg (by simp [hb]), ho, ihh, hfc]
      cases hl : ps.filter keepName with
      | nil =>
        rw [hl] at ihh
        show Except.ok (some (optStr o ++ "")) =
          .ok (if p :: ([] : List Atom) = [] then none
               else some (joinSep ", " ((p :: ([] : List Atom)).map (raS v))))
        simp [str_append_empty, raS, ho, joinSep]
      | cons q qs =>
        show Except.ok (some (optStr o ++ (", " ++ joinSep ", " ((q :: qs).map (raS v))))) =
          .ok (if p :: q :: qs = [] then none
               else some (joinSep ", " ((p :: q :: qs).map (raS v))))
        rw [if_neg (by simp)]
        have hjoin : joinSep ", " (List.map (raS v) (p :: q :: qs)) =
            raS v p ++ ", " ++ joinSep ", " (List.map (raS v) (q :: qs)) := by
          rw [show List.map (raS v) (p :: q :: qs) =
            raS v p :: List.map (raS v) (q :: qs) from rfl]
          exact joinSep_cons _ _ _ (by simp)
        rw [hjoin, str_append_assoc]
        simp [raS, ho]

/-- C1: `renderAtom` (src/index.js) renders a function-kind atom by
excluding the deep parameters (names containing '.') from the inline list,
rendering the remaining parameters recursively inside `name(...)` in an
inline-code span, and joining that by the fixed arrow separator to the
emphasised rendered return type, with the literal `void` when the returns
render to nothing. -/
theorem renderAtom_function_arrow_signature
    (nm : String) (ps : List Atom) (rets : Atom) (acc d : Option String)
    (names ty props : Atom) (opt vr undoc : Bool) (exs : List String)
    (h1 : ∀ p ∈ ps, (nameOf p).isSome)
    (h2 : ∀ p ∈ ps, keepName p = true → (renderAtomV .ixMain .plain false p).isOk = true)
    (h3 : (renderAtomV .ixMain .plain false rets).isOk = true) :
    renderAtomV .ixMain .plain false
        (.obj (some "function") (some nm) acc d (arrOf ps) rets names ty props
          opt vr undoc exs) =
      .ok (some ("<code>" ++ nm ++ "(" ++
        joinSep ", " ((ps.filter keepName).map (raS .ixMain)) ++ ")</code>" ++ " → " ++
        "<em>" ++ jsOrVoid (okD (renderAtomV .ixMain .plain false rets)) ++ "</em>")) := by
  obtain ⟨ro, hro⟩ : ∃ ro, renderAtomV .ixMain .plain false rets = .ok ro := by
    cases hcase : renderAtomV .ixMain .plain false rets with
    | ok o => exact ⟨o, rfl⟩
    | error e => rw [hcase] at h3; cases h3
  simp only [renderAtomV]
  rw [if_pos (by simp), sig_eq_filter .ixMain ps h1 h2, hro]
  cases hl : ps.filter keepName with
  | nil =>
    show Except.ok (some ("<code>" ++ nm ++ "(" ++ optStr none ++ ")</code>" ++ " → " ++
        "<em>" ++ jsOrVoid ro ++ "</em>")) = _
    simp [optStr, okD, joinSep]
  | cons q qs =>
    show Except.ok (some ("<code>" ++ nm ++ "(" ++
        joinSep ", " ((q :: qs).map (raS .ixMain)) ++ ")</code>" ++ " → " ++
        "<em>" ++ jsOrVoid ro ++ "</em>")) = _
    simp [okD]

/-- A plain type atom `{ names: ['Tree'] }`. -/
def treeType : Atom :=
  .obj none none none none .null .null (arrOf [.str "Tree"]) .null .null false false false []

/-- C1 witness: the sample `len` function of the source's doc comment, with
no returns, renders to an inline-code signature arrowed to `void`. -/
theorem renderAtom_function_arrow_signature_witness :
    renderAtomV .ixMain .plain false
      (.obj (some "function") (some "len") none none
        (arrOf [mkParam (some "data") treeType false none]) .null .null .null .null
        false false false []) =
      .ok (some "<code>len(<b title='Tree'>data</b>)</code> → <em>void</em>") :=
  renderAtom_function_arrow_signature "len" [mkParam (some "data") treeType false none]
    .null none none .null .null .null false false false []
    (by decide) (by decide) (by decide)

/-- C10 witness: a concrete typedef atom with both params and properties
renders identically to the same atom with its properties removed. -/
theorem renderAtom_typedef_params_precedence_witness :
    renderAtomV .p1New .plain false
      (.obj (some "typedef") (some "Cb") none none (arrOf []) .null .null .null
        (arrOf [.str "x"]) false false false []) =
    renderAtomV .p1New .plain false
      (.obj (some "typedef") (some "Cb") none none (arrOf []) .null .null .null
        .null false false false []) :=
  (renderAtom_typedef_params_precedence.1 (some "Cb") none none (arrOf []) .null .null .null
    (arrOf [.str "x"]) false false false [] false rfl).1

theorem toListA_arrOf (l : List Atom) : toListA (arrOf l) = l := by
  induction l with
  | nil => rfl
  | cons a as ih => show a :: toListA (arrOf as) = a :: as; rw [ih]

/-- A minimal module-kind section carrying a description and returns. -/
def moduleSec (d : Option String) (rets : List Atom) : Atom :=
  .obj (some "module") (some "m") none d .null (arrOf rets) .null .null .null
    false false false []

/-- C4 counterexample: with two return descriptors whose first is "simple"
(description not ending in a period), `renderBody` string-coerces the whole
fragment array (comma-joined) onto the last block, instead of giving each
fragment its own block as the claim (which requires exactly one entry for
merging) predicts. -/
theorem renderBody_merge_counterexample :
    renderBodyNew (moduleSec (some "D.") [mkRet (some "a") .null, mkRet (some "b") .null]) =
      .ok "D. Returns a.,Returns b." ∧
    renderBodyNew (moduleSec (some "D.") [mkRet (some "a") .null, mkRet (some "b") .null]) ≠
      .ok "D.\n\nReturns a.\n\nReturns b." := by
  refine ⟨rfl, fun hcontra => ?_⟩
  rw [show renderBodyNew
      (moduleSec (some "D.") [mkRet (some "a") .null, mkRet (some "b") .null]) =
      .ok "D. Returns a.,Returns b." from rfl] at hcontra
  injection hcontra with hstr
  exact absurd hstr (by decide)

/-- C4 amended: when the return array's first entry is truthy with an empty
or non-period-terminated description and the body already has a block, all
rendered return fragments are comma-joined and appended to the last block
after a single space; otherwise each fragment becomes its own block. -/
theorem renderBody_merge_amended :
    ∀ (sec : Atom) (f : ObjView) (pre : List String) (rets : List Atom)
      (frs : List (Option String)),
      viewOf sec = .ok f →
      detailsAndDesc sec = .ok pre →
      f.returns = arrOf rets →
      renderReturnsNew rets = .ok frs →
      renderBodyNew sec = .ok (joinSep "\n\n"
        ((if isSimpleReturnNew rets ∧ pre ≠ [] then
            appendToLast pre (" " ++ jsJoinComma frs)
          else pre ++ frs.map optStr) ++ f.examples.map exBlock)) := by
  intro sec f pre rets frs hv hd hr hf
  unfold renderBodyNew
  rw [hv]
  show (do
      let pre2 ← detailsAndDesc sec
      let md2 ← retStep f.returns pre2
      Except.ok (joinSep "\n\n" (md2 ++ f.examples.map exBlock))) = _
  rw [hd]
  show (do
      let md2 ← retStep f.returns pre
      Except.ok (joinSep "\n\n" (md2 ++ f.examples.map exBlock))) = _
  rw [hr]
  have hstep : retStep (arrOf rets) pre =
      .ok (if isSimpleReturnNew rets ∧ pre ≠ [] then
            appendToLast pre (" " ++ jsJoinComma frs)
          else pre ++ frs.map optStr) := by
    cases rets with
    | nil =>
      show (do
          let frs2 ← renderReturnsNew (toListA (arrOf ([] : List Atom)))
          if isSimpleReturnNew (toListA (arrOf ([] : List Atom))) ∧ pre ≠ [] then
            Except.ok (appendToLast pre (" " ++ jsJoinComma frs2))
          else Except.ok (pre ++ frs2.map optStr)) = _
      rw [toListA_arrOf] at *
      rw [show renderReturnsNew ([] : List Atom) = .ok [] from rfl]
      have hfrs : frs = [] := by
        have := hf
        rw [show renderReturnsNew ([] : List Atom) = .ok [] from rfl] at this
        injection this with h2
        exact h2.symm
      subst hfrs
      show Except.ok (if isSimpleReturnNew ([] : List Atom) ∧ pre ≠ [] then
          appendToLast pre (" " ++ jsJoinComma []) else pre ++ ([] : List (Option String)).map optStr) = _
      rfl
    | cons r rs =>
      show (do
          let frs2 ← renderReturnsNew (toListA (arrOf (r :: rs)))
          if isSimpleReturnNew (toListA (arrOf (r :: rs))) ∧ pre ≠ [] then
            Except.ok (appendToLast pre (" " ++ jsJoinComma frs2))
          else Except.ok (pre ++ frs2.map optStr)) = _
      rw [toListA_arrOf, hf]
      show (if isSimpleReturnNew (r :: rs) = true ∧ pre ≠ [] then
          Except.ok (appendToLast pre (" " ++ jsJoinComma frs))
        else Except.ok (pre ++ List.map optStr frs)) = _
      by_cases hc : isSimpleReturnNew (r :: rs) = true ∧ pre ≠ []
      · rw [if_pos hc, if_pos hc]
      · rw [if_neg hc, if_neg hc]
  rw [hstep]
  rfl

/-- C4 amended witness: a single simple return is merged into the preceding
description block with one separating space. -/
theorem renderBody_merge_amended_witness :
    renderBodyNew (moduleSec (some "Hi.") [mkRet (some "a") .null]) =
      .ok "Hi. Returns a." :=
  renderBody_merge_amended (moduleSec (some "Hi.") [mkRet (some "a") .null])
    ⟨some "module", some "m", none, some "Hi.", .null, arrOf [mkRet (some "a") .null],
      .null, .null, .null, false, false, false, []⟩
    ["Hi."] [mkRet (some "a") .null] [some "Returns a."] rfl rfl rfl rfl

theorem bindE_ok {α β : Type} (a : α) (k : α → Except Unit β) :
    (do let x ← (Except.ok a : Except Unit α); k x) = k a := rfl

theorem bindE_error {α β : Type} (e : Unit) (k : α → Except Unit β) :
    (do let x ← (Except.error e : Except Unit α); k x) =
      (Except.error e : Except Unit β) := rfl

theorem splitDots_length : ∀ l : List Char, (splitDots l).length = l.count '.' + 1 := by
  intro l
  induction l with
  | nil => rfl
  | cons c cs ih =>
    cases hs : splitDots cs with
    | nil => rw [hs] at ih; simp at ih
    | cons g gs =>
      rw [hs] at ih
      simp only [splitDots, hs]
      by_cases hc : c = '.'
      · subst hc
        rw [if_pos rfl]
        simp only [List.count_cons, List.length_cons] at *
        simp [ih]
      · rw [if_neg hc]
        simp only [List.count_cons, List.length_cons] at *
        simp [ih, hc]

theorem arrayNJoin_splitDots (nm : String) :
    arrayNJoin (splitDots nm.data).length "  " =
      String.join (List.replicate (nm.data.count '.') "  ") := by
  rw [arrayNJoin, splitDots_length]
  simp

theorem mapME_length (f : Atom → Except Unit String) :
    ∀ (l : List Atom) (rows : List String),
      mapME f l = .ok rows → rows.length = l.length := by
  intro l
  induction l with
  | nil =>
    intro rows h
    injection h with h2
    rw [← h2]
    rfl
  | cons a as ih =>
    intro rows h
    rw [show mapME f (a :: as) = (do
        let r ← f a
        let rest ← mapME f as
        Except.ok (r :: rest)) from rfl] at h
    cases hfa : f a with
    | error e => rw [hfa, bindE_error] at h; exact Except.noConfusion h
    | ok r =>
      rw [hfa, bindE_ok] at h
      cases hrest : mapME f as with
      | error e => rw [hrest, bindE_error] at h; exact Except.noConfusion h
      | ok rest =>
        rw [hrest, bindE_ok] at h
        injection h with h2
        rw [← h2]
        simp [ih rest hrest]

/-- A plain type atom `{ names: ['String'] }`. -/
def stringType : Atom :=
  .obj none none none none .null .null (arrOf [.str "String"]) .null .null false false false []

/-- C8: in table mode (src/index.js) each rendered row shows the parameter's
full dotted name unmodified in its first cell; in list mode (part_001, first
document) each rendered line shows only the last dot-separated segment,
indented two spaces per dot of the name; both modes emit one row/line per
parameter in input order. -/
theorem renderParam_modes :
    (∀ (n : Option String) (t : Atom) (o : Bool) (d tr : Option String),
      renderAtomV .ixMain .plain false t = .ok tr →
      renderParamTable .ixMain (mkParam n t o d) =
        .ok ("| " ++ joinSep " | "
          ["`" ++ jsT n ++ "`",
           (if atomTruthy t then jsT tr ++ (if o then ", _optional_" else "") else ""),
           (if strTruthy d then optStr d else "")] ++ " |")) ∧
    (∀ (nm : String) (t : Atom) (o : Bool) (d tr : Option String),
      renderAtomV .p1Old .plain false t = .ok tr →
      renderParamListOld (mkParam (some nm) t o d) =
        .ok (joinSep " "
          ([String.join (List.replicate (nm.data.count '.') "  ") ++ "-",
            "`" ++ String.mk ((splitDots nm.data).getLastD []) ++ "`"] ++
           (if atomTruthy t then
              ["*(" ++ (if o then "<span title='Optional'>?</span>" else "") ++ jsT tr ++ ")*"]
            else []) ++
           (if strTruthy d then ["&mdash;", optStr d] else [])))) ∧
    (∀ (ps : List Atom) (rows : List String),
      mapME (renderParamTable .ixMain) ps = .ok rows →
      renderParamsIx ps = .ok (tableHeader ++ joinSep "\n" rows) ∧ rows.length = ps.length) ∧
    (∀ (ps : List Atom) (rows : List String),
      mapME renderParamListOld ps = .ok rows →
      renderParamsOld ps = .ok [joinSep "\n" rows] ∧ rows.length = ps.length) := by
  refine ⟨?_, ?_, ?_, ?_⟩
  · intro n t o d tr htr
    simp only [renderParamTable, mkParam, viewOf, bindE_ok]
    by_cases ht : atomTruthy t = true
    · rw [if_pos ht, if_pos ht, htr]; rfl
    · rw [if_neg ht, if_neg ht]
  · intro nm t o d tr htr
    simp only [renderParamListOld, mkParam, viewOf, bindE_ok]
    rw [← arrayNJoin_splitDots]
    by_cases ht : atomTruthy t = true
    · rw [if_pos ht, if_pos ht, htr]
      by_cases hd : strTruthy d = true <;> simp [hd, bindE_ok]
    · rw [if_neg ht, if_neg ht]
      by_cases hd : strTruthy d = true <;> simp [hd, bindE_ok]
  · intro ps rows h
    refine ⟨?_, mapME_length _ ps rows h⟩
    rw [show renderParamsIx ps = (do
        let rows2 ← mapME (renderParamTable .ixMain) ps
        Except.ok (tableHeader ++ joinSep "\n" rows2)) from rfl, h, bindE_ok]
  · intro ps rows h
    refine ⟨?_, mapME_length _ ps rows h⟩
    rw [show renderParamsOld ps = (do
        let rows2 ← mapME renderParamListOld ps
        Except.ok [joinSep "\n" rows2]) from rfl, h, bindE_ok]

/-- C8 witness: the parameter `options.prefix` typed `String` shows its full
dotted name in the table row and only `prefix`, indented one level, in the
list line. -/
theorem renderParam_modes_witness :
    renderParamTable .ixMain
        (mkParam (some "options.prefix") stringType false (some "the prefix")) =
      .ok "| `options.prefix` | String | the prefix |" ∧
    renderParamListOld
        (mkParam (some "options.prefix") stringType false (some "the prefix")) =
      .ok "  - `prefix` *(String)* &mdash; the prefix" :=
  ⟨renderParam_modes.1 (some "options.prefix") stringType false (some "the prefix")
      (some "String") rfl,
   renderParam_modes.2.1 "options.prefix" stringType false (some "the prefix")
      (some "String") rfl⟩

/-- The `kind` property of an atom (`undefined` on non-objects). -/
def kindOf : Atom → Option String
  | .obj k _ _ _ _ _ _ _ _ _ _ _ _ => k
  | _ => none

/-- The `undocumented` property of an atom, as a truthiness value. -/
def undocOf : Atom → Bool
  | .obj _ _ _ _ _ _ _ _ _ _ _ u _ => u
  | _ => false

/-- The `access` property of an atom (`undefined` on non-objects). -/
def accessOf : Atom → Option String
  | .obj _ _ a _ _ _ _ _ _ _ _ _ _ => a
  | _ => none

/-- The sections `render` keeps, as the claim states them: not undocumented,
not package-kind, and not private unless `includePrivate` (a `null` element
is "kept" — the code throws on it wherever it appears, filtered or not). -/
def keepP (opts : ROptions) (s : Atom) : Bool :=
  match s with
  | .null => true
  | _ =>
    (!(undocOf s) && (kindOf s != some "package")) &&
      (opts.includePrivate || (accessOf s != some "private"))

theorem keepP_ne_null (opts : ROptions) (a : Atom) (h : a ≠ .null) :
    keepP opts a = ((!(undocOf a) && (kindOf a != some "package")) &&
      (opts.includePrivate || (accessOf a != some "private"))) := by
  cases a with
  | null => exact absurd rfl h
  | str s => rfl
  | nilA => rfl
  | consA x y => rfl
  | obj k n ac d p r nm t pr o v u e => rfl

theorem filterUndoc_cons_ne (s : Atom) (ss : List Atom) (hs : s ≠ .null) :
    filterUndoc (s :: ss) = (do
      let rest ← filterUndoc ss
      if !(undocOf s) && (kindOf s != some "package") then .ok (s :: rest)
      else .ok rest) := by
  cases s with
  | null => exact absurd rfl hs
  | str s2 => rfl
  | nilA => rfl
  | consA x y => rfl
  | obj k n ac d p r nm t pr o v u e => rfl

theorem filterPriv_cons_ne (s : Atom) (ss : List Atom) (hs : s ≠ .null) :
    filterPriv (s :: ss) = (do
      let rest ← filterPriv ss
      if !(strTruthy (accessOf s)) || (accessOf s != some "private") then .ok (s :: rest)
      else .ok rest) := by
  cases s with
  | null => exact absurd rfl hs
  | str s2 => rfl
  | nilA => rfl
  | consA x y => rfl
  | obj k n ac d p r nm t pr o v u e => rfl

theorem filterUndoc_err : ∀ data : List Atom, .null ∈ data → filterUndoc data = .error () := by
  intro data
  induction data with
  | nil => intro h; cases h
  | cons s ss ih =>
    intro h
    by_cases hs : s = Atom.null
    · subst hs; rfl
    · have hm : Atom.null ∈ ss := by
        cases h with
        | head => exact absurd rfl hs
        | tail _ hm => exact hm
      rw [filterUndoc_cons_ne s ss hs, ih hm, bindE_error]

theorem filterPriv_err : ∀ data : List Atom, .null ∈ data → filterPriv data = .error () := by
  intro data
  induction data with
  | nil => intro h; cases h
  | cons s ss ih =>
    intro h
    by_cases hs : s = Atom.null
    · subst hs; rfl
    · have hm : Atom.null ∈ ss := by
        cases h with
        | head => exact absurd rfl hs
        | tail _ hm => exact hm
      rw [filterPriv_cons_ne s ss hs, ih hm, bindE_error]

theorem filterUndoc_ok : ∀ data : List Atom, .null ∉ data →
    filterUndoc data =
      .ok (data.filter (fun s => !(undocOf s) && (kindOf s != some "package"))) := by
  intro data
  induction data with
  | nil => intro _; rfl
  | cons s ss ih =>
    intro h
    have hs : s ≠ Atom.null := fun he => h (he ▸ List.mem_cons_self s ss)
    have hss : Atom.null ∉ ss := fun hm => h (List.mem_cons_of_mem _ hm)
    rw [filterUndoc_cons_ne s ss hs, ih hss, bindE_ok, List.filter_cons]
    by_cases hc : (!(undocOf s) && (kindOf s != some "package")) = true
    · rw [if_pos hc, if_pos hc]
    · rw [if_neg hc, if_neg hc]

theorem filterPriv_ok : ∀ data : List Atom, .null ∉ data →
    filterPriv data =
      .ok (data.filter (fun s => !(strTruthy (accessOf s)) || (accessOf s != some "private"))) := by
  intro data
  induction data with
  | nil => intro _; rfl
  | cons s ss ih =>
    intro h
    have hs : s ≠ Atom.null := fun he => h (he ▸ List.mem_cons_self s ss)
    have hss : Atom.null ∉ ss := fun hm => h (List.mem_cons_of_mem _ hm)
    rw [filterPriv_cons_ne s ss hs, ih hss, bindE_ok, List.filter_cons]
    by_cases hc : (!(strTruthy (accessOf s)) || (accessOf s != some "private")) = true
    · rw [if_pos hc, if_pos hc]
    · rw [if_neg hc, if_neg hc]

theorem privTest_eq (a : Atom) :
    (!(strTruthy (accessOf a)) || (accessOf a != some "private")) =
      (accessOf a != some "private") := by
  cases h : accessOf a with
  | none => rfl
  | some x =>
    by_cases hx : x = "private"
    · subst hx; rfl
    · have hb : (some x != some "private") = true := by
        simp [bne]
        exact hx
      simp [hb]

theorem renderNew_of_filterUndoc_err (data : List Atom) (opts : ROptions)
    (h : filterUndoc data = .error ()) : renderNew data opts = .error () := by
  unfold renderNew
  rw [h, bindE_error]

/-- C3: `render` (part_001, second document) drops undocumented and
package-kind sections unconditionally and private sections unless
`includePrivate`, and the output never depends on the dropped sections:
removing them from the input beforehand leaves the result unchanged. -/
theorem render_filters_sections :
    ∀ (data : List Atom) (opts : ROptions),
      renderNew data opts = renderNew (data.filter (keepP opts)) opts := by
  intro data opts
  by_cases hnull : Atom.null ∈ data
  · have hnull2 : Atom.null ∈ data.filter (keepP opts) :=
      List.mem_filter.mpr ⟨hnull, rfl⟩
    rw [renderNew_of_filterUndoc_err data opts (filterUndoc_err data hnull),
      renderNew_of_filterUndoc_err _ opts (filterUndoc_err _ hnull2)]
  · have hnf : Atom.null ∉ data.filter (keepP opts) :=
      fun hm => hnull (List.mem_filter.mp hm).1
    have h1 := filterUndoc_ok data hnull
    have h1' := filterUndoc_ok _ hnf
    have hd1 : Atom.null ∉
        data.filter (fun s => !(undocOf s) && (kindOf s != some "package")) :=
      fun hm => hnull (List.mem_filter.mp hm).1
    have hd1' : Atom.null ∉
        (data.filter (keepP opts)).filter
          (fun s => !(undocOf s) && (kindOf s != some "package")) :=
      fun hm => hnf (List.mem_filter.mp hm).1
    unfold renderNew
    rw [h1, bindE_ok, h1', bindE_ok]
    cases hincl : opts.includePrivate with
    | true =>
      rw [if_pos rfl, if_pos rfl, bindE_ok, bindE_ok]
      have hL : data.filter (fun s => !(undocOf s) && (kindOf s != some "package")) =
          (data.filter (keepP opts)).filter
            (fun s => !(undocOf s) && (kindOf s != some "package")) := by
        rw [List.filter_filter]
        refine (List.filter_congr ?_).symm
        intro a ha
        have hne : a ≠ Atom.null := fun he => hnull (he ▸ ha)
        rw [keepP_ne_null opts a hne, hincl]
        cases hU : (!(undocOf a) && (kindOf a != some "package")) <;> simp [hU]
      rw [hL]
    | false =>
      rw [if_neg (by simp), if_neg (by simp),
        filterPriv_ok _ hd1, bindE_ok, filterPriv_ok _ hd1', bindE_ok]
      have hL : (data.filter (fun s => !(undocOf s) && (kindOf s != some "package"))).filter
            (fun s => !(strTruthy (accessOf s)) || (accessOf s != some "private")) =
          ((data.filter (keepP opts)).filter
            (fun s => !(undocOf s) && (kindOf s != some "package"))).filter
            (fun s => !(strTruthy (accessOf s)) || (accessOf s != some "private")) := by
        rw [List.filter_filter, List.filter_filter, List.filter_filter]
        refine (List.filter_congr ?_).symm
        intro a ha
        have hne : a ≠ Atom.null := fun he => hnull (he ▸ ha)
        rw [keepP_ne_null opts a hne, hincl, privTest_eq]
        cases hP : (accessOf a != some "private") <;>
          cases hU : (!(undocOf a) && (kindOf a != some "package")) <;> simp [hP, hU]
      rw [hL]
